import Mathlib

/-!
Verification of the ustriage Task model (src/ustriage/task.py).

Python strings are embedded as `List Char`; Python `None` becomes `Option`;
Python exceptions become `Except`; the remote Launchpad objects are embedded
as records carrying exactly the fields the source reads from them.
-/

namespace Ustriage

/-- Python truthiness of an optional boolean (`None` is falsy). -/
def truthyOB : Option Bool → Bool
  | none => false
  | some b => b

/-- Python truthiness of an optional string (`None` and `""` are falsy). -/
def strOptTruthy : Option String → Bool
  | none => false
  | some s => s != ""

/-- The character class `[A-Z]` of the regex in `get_releases`
(`re.sub('[^A-Z]+', '', release_info, 0)` keeps exactly these). -/
def isCapital (c : Char) : Bool := 'A' ≤ c && c ≤ 'Z'

/-- Characters that survive stripping the colour decorations: the decoration
markers consist only of ESC, `[`, digits, `;` and `m`, so capital letters and
the pad spaces are exactly the undecorated payload. -/
def capitalOrSpace (c : Char) : Bool := isCapital c || c == ' '

/-- Python `str.upper()` on a single character, in the ASCII range used for
distribution series names. -/
def pyUpper (c : Char) : Char :=
  if 'a' ≤ c ∧ c ≤ 'z' then Char.ofNat (c.toNat - 32) else c

/-- `COLOR_CYAN = "\033[0;36m"` from task.py. -/
def COLOR_CYAN : List Char := "\u001B[0;36m".data

/-- `COLOR_GREEN = "\033[0;32m"` from task.py. -/
def COLOR_GREEN : List Char := "\u001B[0;32m".data

/-- `COLOR_YELLOW = "\033[0;33m"` from task.py. -/
def COLOR_YELLOW : List Char := "\u001B[0;33m".data

/-- `COLOR_RESET = "\033[0m"` from task.py. -/
def COLOR_RESET : List Char := "\u001B[0m".data

/-- `mark(text, color)` from task.py: `color + text + COLOR_RESET`. -/
def mark (text color : List Char) : List Char := color ++ text ++ COLOR_RESET

/-- `truncate_string(text, length)` from task.py: Python slice `text[0:length]`,
and if the original was longer, `truncated[:-1] + '…'`. -/
def truncate_string (text : List Char) (length : Nat) : List Char :=
  let truncated := text.take length
  if text.length > length then truncated.dropLast ++ ['…'] else truncated

/-- Python `str.split(sep)` for a one-character separator: splits at every
occurrence of the separator, keeping empty fields (`''.split(sep) == ['']`). -/
def splitChar (sep : Char) : List Char → List (List Char)
  | [] => [[]]
  | c :: cs =>
    if c = sep then [] :: splitChar sep cs
    else
      match splitChar sep cs with
      | [] => [[c]]
      | g :: gs => (c :: g) :: gs

/-- Python `sep.join(fields)` for a one-character separator. -/
def joinSep (sep : Char) : List (List Char) → List Char
  | [] => []
  | [t] => t
  | t :: ts => t ++ sep :: joinSep sep ts

/-- The four `resource_type_link` values of a task target that `short_title`
distinguishes. -/
inductive TargetType
  | distribution
  | distribution_source_package
  | source_package
  | project
deriving DecidableEq

/-- The `start_field` table of `Task.short_title`, keyed by the target's
resource type link. -/
def start_field : TargetType → Nat
  | .distribution => 4
  | .distribution_source_package => 5
  | .source_package => 6
  | .project => 7

/-- `Task.short_title`:
`' '.join(self.title.split(' ')[start_field:]).replace('"', '')`. -/
def short_title (title : List Char) (rt : TargetType) : List Char :=
  (joinSep ' ' ((splitChar ' ' title).drop (start_field rt))).filter
    (fun c => c != '"')

/-- `Task.number`: `self.title.split(' ')[1].replace('#', '')`. -/
def number_of (title : List Char) : List Char :=
  ((splitChar ' ' title).getD 1 []).filter (fun c => c != '#')

/-- The state of the `lru_cache` that backs the `number` property: the cached
value, if any, and how many times the underlying computation has run. -/
structure NumberCacheState where
  cache : Option (List Char)
  computes : Nat
deriving DecidableEq

/-- One access to the memoized `number` property: return the cached value if
present, otherwise compute `number_of` once and store it. -/
def number_access (title : List Char) (st : NumberCacheState) :
    List Char × NumberCacheState :=
  match st.cache with
  | some v => (v, st)
  | none =>
    let v := number_of title
    (v, ⟨some v, st.computes + 1⟩)

/-- The exceptions `get_upload_source_urls` can raise: the two
`RuntimeError`s of the source (the EPERM wrapper around the `ValueError`
permission probe, and "Cannot find source"), and the `StopIteration` that
`next()` raises when a copy upload's published-sources query is empty. -/
inductive SrcErr
  | eperm
  | no_source
  | stop_iteration
deriving DecidableEq

/-- A package upload as read by the unapproved-queue scan: exactly the
fields of the remote Upload object that task.py accesses.
`copy_archive_probe_raises` models the `ValueError` raised by touching
`copy_source_archive.self_link`; `copy_published_source_urls` is the
`sourceFileUrls()` of the first entry of
`copy_source_archive.getPublishedSources(...)`, or `none` when that query
returns no entries; `changes_bugs` is the fixed-bug list parsed from the
upload's changes file (the external fetch treated as data, per the spec's
`fetch_bug_numbers_from_changes`). -/
structure Upload where
  contains_source : Bool
  source_file_urls : List String
  contains_copy : Bool
  copy_archive_probe_raises : Bool
  copy_published_source_urls : Option (List String)
  changes_file_url : Option String
  changes_bugs : List String
deriving DecidableEq

/-- `get_upload_source_urls(upload)` from task.py. -/
def get_upload_source_urls (u : Upload) : Except SrcErr (List String) :=
  if u.contains_source then .ok u.source_file_urls
  else if u.contains_copy then
    if u.copy_archive_probe_raises then .error .eperm
    else
      match u.copy_published_source_urls with
      | some urls => .ok urls
      | none => .error .stop_iteration
  else .error .no_source

/-- Which of the possible exceptions are `RuntimeError`s, i.e. caught by the
`except RuntimeError: continue` in `_is_in_unapproved`. -/
def isRuntimeError : SrcErr → Bool
  | .eperm => true
  | .no_source => true
  | .stop_iteration => false

/-- The class-wide status configuration of `Task`
(`NOWORK_BUG_STATUSES` / `OPEN_BUG_STATUSES`). -/
structure StatusConfig where
  NOWORK_BUG_STATUSES : List String
  OPEN_BUG_STATUSES : List String

/-- A `Task` record as read by `to_dict`'s sibling loop, `get_releases` and
`_is_in_unapproved`: its `series` (`none` models Python `None`), its `src`
(title-derived source package), its `number`, the contents of the
unapproved queue returned for (`series`, `src`), and the
(series, status) pairs of `_sibling_tasks.items()`. -/
structure TaskR where
  series : Option String
  src : String
  number : String
  uploads : List Upload
  siblings : List (String × String)

/-- The upload-queue scan loop of `_is_in_unapproved`, paired with the
number of changes files fetched (`find_changes_bugs` calls): uploads whose
source URLs cannot be resolved with a `RuntimeError` are skipped, a
non-`RuntimeError` exception propagates, uploads with a falsy
`changes_file_url` are skipped, and the scan returns `true` on the first
upload whose changes file lists `number`. -/
def scan_uploads_traced (number : String) :
    List Upload → Except SrcErr Bool × Nat
  | [] => (.ok false, 0)
  | u :: rest =>
    match get_upload_source_urls u with
    | .error e =>
      if isRuntimeError e then scan_uploads_traced number rest
      else (.error e, 0)
    | .ok _ =>
      if strOptTruthy u.changes_file_url then
        if number ∈ u.changes_bugs then (.ok true, 1)
        else
          match scan_uploads_traced number rest with
          | (r, n) => (r, n + 1)
      else scan_uploads_traced number rest

/-- The remote interactions of one `_is_in_unapproved` call: accesses to
`Task.LP.distributions`, series/package-upload queue queries, and changes
file fetches. -/
structure LPTrace where
  distribution_lookups : Nat
  series_queue_queries : Nat
  changes_fetches : Nat
deriving DecidableEq

/-- `Task._is_in_unapproved`, with its remote interactions made explicit.
As in the source, `ubuntu = Task.LP.distributions["ubuntu"]` is evaluated
before the series guard, so one distributions lookup is traced even when
the guard returns `None`; otherwise the series queue is queried once and
the uploads are scanned. -/
def is_in_unapproved_traced (t : TaskR) :
    Except SrcErr (Option Bool) × LPTrace :=
  let lookups := 1
  if !(strOptTruthy t.series) || t.series == some "-devel" then
    (.ok none, ⟨lookups, 0, 0⟩)
  else
    match scan_uploads_traced t.number t.uploads with
    | (r, fetches) => (r.map some, ⟨lookups, 1, fetches⟩)

/-- The scan result alone (the value `_is_in_unapproved` returns, or the
exception it raises). -/
def scan_uploads (number : String) (uploads : List Upload) :
    Except SrcErr Bool :=
  (scan_uploads_traced number uploads).1

/-- The value `_is_in_unapproved` returns (or the exception it raises). -/
def is_in_unapproved_result (t : TaskR) : Except SrcErr (Option Bool) :=
  (is_in_unapproved_traced t).1

/-- One call to `self._is_in_unapproved()` from a call site, threading a
counter of how many times the method has been invoked during the run (the
method itself carries no cache, so each call redoes the work). -/
def unapproved_call (t : TaskR) (cnt : Nat) :
    Except SrcErr (Option Bool) × Nat :=
  (is_in_unapproved_result t, cnt + 1)

/-- The sibling-classification loop at the top of `Task.to_dict`, threading
the `_is_in_unapproved` call counter: `closed` for a status in
`NOWORK_BUG_STATUSES`, else `unapproved` when `self._is_in_unapproved()` is
truthy, else `open` for a status in `OPEN_BUG_STATUSES`, else `pending`. -/
def sibling_status_loop (cfg : StatusConfig) (t : TaskR) :
    List (String × String) → Nat →
      Except SrcErr (List (String × String)) × Nat
  | [], cnt => (.ok [], cnt)
  | (series, status) :: rest, cnt =>
    if status ∈ cfg.NOWORK_BUG_STATUSES then
      match sibling_status_loop cfg t rest cnt with
      | (.ok l, c) => (.ok ((series, "closed") :: l), c)
      | (.error e, c) => (.error e, c)
    else
      match unapproved_call t cnt with
      | (.error e, c1) => (.error e, c1)
      | (.ok u, c1) =>
        let cls := if truthyOB u then "unapproved"
          else if status ∈ cfg.OPEN_BUG_STATUSES then "open"
          else "pending"
        match sibling_status_loop cfg t rest c1 with
        | (.ok l, c) => (.ok ((series, cls) :: l), c)
        | (.error e, c) => (.error e, c)

/-- `sibling_task_status` as computed by `Task.to_dict`. -/
def sibling_task_status (cfg : StatusConfig) (t : TaskR) :
    Except SrcErr (List (String × String)) :=
  (sibling_status_loop cfg t t.siblings 0).1

/-- The release character of `get_releases`:
`'D' if series[0] == '-' else series[0].upper()` (an empty series name
makes the source raise `IndexError`; theorems assume nonempty names). -/
def release_char (series : String) : Char :=
  match series.data with
  | [] => '?'
  | c :: _ => if c = '-' then 'D' else pyUpper c

/-- The character-building loop of `Task.get_releases`, threading the
`_is_in_unapproved` call counter: one release character per sibling, marked
green when the status is in `NOWORK_BUG_STATUSES`, else cyan when
`self._is_in_unapproved()` is truthy, else yellow when the status is in
`OPEN_BUG_STATUSES`, else unmarked. -/
def get_releases_loop (cfg : StatusConfig) (t : TaskR) :
    List (String × String) → Nat → Except SrcErr (List Char) × Nat
  | [], cnt => (.ok [], cnt)
  | (series, status) :: rest, cnt =>
    let rc : List Char := [release_char series]
    if status ∈ cfg.NOWORK_BUG_STATUSES then
      match get_releases_loop cfg t rest cnt with
      | (.ok info, c) => (.ok (mark rc COLOR_GREEN ++ info), c)
      | (.error e, c) => (.error e, c)
    else
      match unapproved_call t cnt with
      | (.error e, c1) => (.error e, c1)
      | (.ok u, c1) =>
        let chunk := if truthyOB u then mark rc COLOR_CYAN
          else if status ∈ cfg.OPEN_BUG_STATUSES then mark rc COLOR_YELLOW
          else rc
        match get_releases_loop cfg t rest c1 with
        | (.ok info, c) => (.ok (chunk ++ info), c)
        | (.error e, c) => (.error e, c)

/-- `Task.get_releases(length)`: build the decorated per-release string,
count its printable `[A-Z]` characters, and right-pad with spaces when that
count is below `length`; paired with the `_is_in_unapproved` call count. -/
def get_releases_counted (cfg : StatusConfig) (t : TaskR) (length : Nat)
    (cnt : Nat) : Except SrcErr (List Char) × Nat :=
  match get_releases_loop cfg t t.siblings cnt with
  | (.error e, c) => (.error e, c)
  | (.ok release_info, c) =>
    let printable := release_info.filter isCapital
    let p_len := printable.length
    let p_need := length - p_len
    if p_need > 0 then (.ok (release_info ++ List.replicate p_need ' '), c)
    else (.ok release_info, c)

/-- `Task.get_releases(length)` (result only). -/
def get_releases (cfg : StatusConfig) (t : TaskR) (length : Nat) :
    Except SrcErr (List Char) :=
  (get_releases_counted cfg t length 0).1

/-- A single run that first evaluates `to_dict`'s sibling classification
and then `get_releases(length)` on the same record: the total number of
`_is_in_unapproved` invocations performed. -/
def run_both (cfg : StatusConfig) (t : TaskR) (length : Nat) : Nat :=
  (get_releases_counted cfg t length
    ((sibling_status_loop cfg t t.siblings 0).2)).2

/-- Whether an upload would (non-exceptionally) report this record's bug
number: its source URLs resolve, it has a truthy changes-file URL, and its
changes file lists `number` among the fixed bugs. -/
def upload_matches (number : String) (u : Upload) : Bool :=
  (match get_upload_source_urls u with
   | .ok _ => true
   | .error _ => false)
  && strOptTruthy u.changes_file_url
  && decide (number ∈ u.changes_bugs)

/-- Whether resolving this upload raises the one exception the scan does not
catch (`StopIteration` from an empty published-sources query). -/
def raisesStopIteration (u : Upload) : Bool :=
  match get_upload_source_urls u with
  | .error .stop_iteration => true
  | _ => false

/-- A typical status configuration, with closed-like and open-like
statuses. -/
def cfg_ex : StatusConfig :=
  { NOWORK_BUG_STATUSES := ["Fix Released", "Fix Committed", "Invalid"],
    OPEN_BUG_STATUSES := ["New", "Confirmed", "Triaged", "In Progress"] }

/-- A record targeting the devel series (normalized name `"-devel"`). -/
def task_devel : TaskR :=
  { series := some "-devel", src := "apache2", number := "1",
    uploads := [], siblings := [] }

/-- A record with one sibling whose status is open (not in
`NOWORK_BUG_STATUSES`), and an empty unapproved queue. -/
def task_one_sibling : TaskR :=
  { series := some "trusty", src := "apache2", number := "1",
    uploads := [], siblings := [("trusty", "New")] }

/-- The two-sibling record of the spec example for `get_releases(7)`:
series `trusty` and `-devel`, both with an open status. -/
def task_two_siblings : TaskR :=
  { series := some "trusty", src := "apache2", number := "1",
    uploads := [], siblings := [("trusty", "New"), ("-devel", "New")] }

/-- A copy upload whose permission probe raises (skipped by the scan). -/
def upload_eperm : Upload :=
  { contains_source := false, source_file_urls := [],
    contains_copy := true, copy_archive_probe_raises := true,
    copy_published_source_urls := none,
    changes_file_url := some "http://launchpad.test/a.changes",
    changes_bugs := ["1"] }

/-- An upload that is neither a direct source nor a copy (skipped). -/
def upload_nosrc : Upload :=
  { contains_source := false, source_file_urls := [],
    contains_copy := false, copy_archive_probe_raises := false,
    copy_published_source_urls := none,
    changes_file_url := some "http://launchpad.test/b.changes",
    changes_bugs := ["1"] }

/-- A source upload without a changes-file URL (skipped). -/
def upload_nochanges : Upload :=
  { contains_source := true, source_file_urls := ["http://launchpad.test/s"],
    contains_copy := false, copy_archive_probe_raises := false,
    copy_published_source_urls := none,
    changes_file_url := none, changes_bugs := ["1"] }

/-- A source upload whose changes file fixes bug number 1. -/
def upload_match1 : Upload :=
  { contains_source := true, source_file_urls := ["http://launchpad.test/s"],
    contains_copy := false, copy_archive_probe_raises := false,
    copy_published_source_urls := none,
    changes_file_url := some "http://launchpad.test/c.changes",
    changes_bugs := ["1", "2"] }

/-- A record whose unapproved queue holds three skippable uploads followed
by a matching one. -/
def task_scan : TaskR :=
  { series := some "trusty", src := "apache2", number := "1",
    uploads := [upload_eperm, upload_nosrc, upload_nochanges, upload_match1],
    siblings := [] }

/-- A record whose only sibling has a closed status while the unapproved
check reports true (its queue holds a matching upload). -/
def task_closed_unapproved : TaskR :=
  { series := some "trusty", src := "apache2", number := "1",
    uploads := [upload_match1],
    siblings := [("trusty", "Fix Released")] }

/-- The class-wide `AGE` / `OLD` thresholds of `Task` (`None` until the
caller assigns them); timestamps are embedded as integers. -/
structure FlagsConfig where
  AGE : Option Int
  OLD : Option Int

/-- A `Task` record as read by `get_flags`: the two caller-supplied flags
(initialized to `None` by `__init__`), the bug tags and the last-update
timestamp. -/
structure TaskF where
  subscribed : Option Bool
  last_activity_ours : Option Bool
  tags : List (List Char)
  date_last_updated : Int

/-- `Task._is_updated`: `self.AGE and self.date_last_updated > self.AGE` —
when `AGE` is `None` the conjunction short-circuits and returns `None`
itself, otherwise the boolean comparison. -/
def is_updated (cfg : FlagsConfig) (t : TaskF) : Option Bool :=
  match cfg.AGE with
  | none => none
  | some a => some (decide (t.date_last_updated > a))

/-- `Task._is_old`: `self.OLD and self.date_last_updated < self.OLD`. -/
def is_old (cfg : FlagsConfig) (t : TaskF) : Option Bool :=
  match cfg.OLD with
  | none => none
  | some o => some (decide (t.date_last_updated < o))

/-- `Task._is_verification_needed`:
`any('verification-needed-' in tag for tag in self.tags)`. -/
def is_verification_needed (t : TaskF) : Bool :=
  t.tags.any (fun tag => decide (List.IsInfix "verification-needed-".data tag))

/-- `Task._is_verification_done`:
`any('verification-done-' in tag for tag in self.tags)`. -/
def is_verification_done (t : TaskF) : Bool :=
  t.tags.any (fun tag => decide (List.IsInfix "verification-done-".data tag))

/-- `Task.get_flags(newbug)`: the fixed-layout flag string — subscribed
marker, last-activity-ours marker, updated/old marker, newbug marker, then
the two decorated verification markers, each position a space when its
condition is falsy. -/
def get_flags (cfg : FlagsConfig) (t : TaskF) (newbug : Bool) : List Char :=
  (if truthyOB t.subscribed then ['*'] else [' ']) ++
  (if truthyOB t.last_activity_ours then ['+'] else [' ']) ++
  (if truthyOB (is_updated cfg t) then ['U']
   else if truthyOB (is_old cfg t) then ['O'] else [' ']) ++
  (if newbug then ['N'] else [' ']) ++
  (if is_verification_needed t then mark ['v'] COLOR_CYAN else [' ']) ++
  (if is_verification_done t then mark ['V'] COLOR_GREEN else [' '])

/-- The thresholds as they stand before the CLI assigns them: both
`None`. -/
def cfg_unset : FlagsConfig := { AGE := none, OLD := none }

/-- A freshly constructed record: both caller-supplied flags still `None`,
some tags, some timestamp. -/
def task_fresh : TaskF :=
  { subscribed := none, last_activity_ours := none,
    tags := ["server-triage-discuss".data], date_last_updated := 100 }

/-- The series normalization of `__init__` and `_sibling_tasks`:
`'+source'` becomes `'-devel'`. -/
def normalize_series (s : List Char) : List Char :=
  if s = "+source".data then "-devel".data else s

/-- A Python-dict assignment `d[k] = v` on an insertion-ordered mapping: an
existing key keeps its position and receives the new value, a new key is
appended at the end. -/
def update_assoc (k v : List Char) :
    List (List Char × List Char) → List (List Char × List Char)
  | [] => [(k, v)]
  | (k', v') :: rest =>
    if k' = k then (k', v) :: rest else (k', v') :: update_assoc k v rest

/-- The two `continue` filters of `_sibling_tasks`: the reference path's
segment 4 must be the literal `"ubuntu"` and its third-from-last segment
must equal this record's `src`. -/
def sibling_qualifies (src ref : List Char) : Bool :=
  let els := splitChar '/' ref
  decide (els.getD 4 [] = "ubuntu".data) &&
    decide (els.getD (els.length - 3) [] = src)

/-- The normalized series key of a sibling reference path (segment 5, with
`'+source'` rendered `'-devel'`). -/
def sibling_series (ref : List Char) : List Char :=
  normalize_series ((splitChar '/' ref).getD 5 [])

/-- One iteration of the `_sibling_tasks` loop. -/
def sibling_step (src : List Char) (acc : List (List Char × List Char))
    (ref : List Char) : List (List Char × List Char) :=
  if sibling_qualifies src ref then
    update_assoc (sibling_series ref) ref acc
  else acc

/-- `Task._sibling_tasks`: fold the parent bug's task reference paths into
an insertion-ordered series-to-task mapping, the last task winning on a
duplicate series. -/
def sibling_tasks (src : List Char) (bug_tasks : List (List Char)) :
    List (List Char × List Char) :=
  bug_tasks.foldl (sibling_step src) []

/-- First-occurrence deduplication (the key order a Python dict keeps),
relative to a set of already-seen keys. -/
def dedup_first_aux (seen : List (List Char)) :
    List (List Char) → List (List Char)
  | [] => []
  | k :: ks =>
    if k ∈ seen then dedup_first_aux seen ks
    else k :: dedup_first_aux (k :: seen) ks

/-- First-occurrence deduplication. -/
def dedup_first (l : List (List Char)) : List (List Char) :=
  dedup_first_aux [] l

/-- Lookup in an ordered association list. -/
def assoc_lookup (k : List Char) :
    List (List Char × List Char) → Option (List Char)
  | [] => none
  | (k', v) :: rest => if k' = k then some v else assoc_lookup k rest

/-- An ubuntu/trusty task reference for the apache2 package. -/
def ref_trusty1 : List Char :=
  "https://api.launchpad.net/devel/ubuntu/trusty/+source/apache2/+bug/1".data

/-- An ubuntu devel-series (`+source`) task reference for apache2. -/
def ref_devel : List Char :=
  "https://api.launchpad.net/devel/ubuntu/+source/apache2/+bug/1".data

/-- A task reference of another distribution (excluded). -/
def ref_debian : List Char :=
  "https://api.launchpad.net/devel/debian/+source/apache2/+bug/1".data

/-- A second ubuntu/trusty task reference (duplicate series; wins). -/
def ref_trusty2 : List Char :=
  "https://api.launchpad.net/devel/ubuntu/trusty/+source/apache2/+bug/2".data

/-- A parent bug's task list with a foreign-distribution entry and a
duplicated series. -/
def bug_tasks_ex : List (List Char) :=
  [ref_trusty1, ref_debian, ref_devel, ref_trusty2]

end Ustriage

namespace Ustriage

/-- Claim C7 (counterexample to the claim as stated): at `length = 0` and a
nonempty input, `truncate_string` returns the one-character string `"…"`,
not a string of exactly 0 characters as the claim requires. -/
theorem C7_counterexample :
    truncate_string "a".data 0 = "…".data ∧ (truncate_string "a".data 0).length ≠ 0 ∧
      ¬ ("a".data.length ≤ 0) := by
  refine ⟨rfl, by decide, by decide⟩

/-- Claim C7 (amended): for every string `s` and every length `n ≥ 1`,
`truncate_string s n` returns `s` unchanged when `s` has at most `n`
characters; otherwise it returns exactly `n` characters whose last character
is the ellipsis glyph and whose first `n - 1` characters are the first
`n - 1` characters of `s`; in particular
`truncate_string "abcdefghij" 5 = "abcd…"` and
`truncate_string "abc" 5 = "abc"`. -/
theorem C7_truncate_spec (s : List Char) (n : Nat) (hn : 1 ≤ n) :
    (s.length ≤ n → truncate_string s n = s) ∧
    (s.length > n →
      (truncate_string s n).length = n ∧
      (truncate_string s n).getLast? = some '…' ∧
      (truncate_string s n).take (n - 1) = s.take (n - 1)) ∧
    truncate_string "abcdefghij".data 5 = "abcd…".data ∧
    truncate_string "abc".data 5 = "abc".data := by
  refine ⟨?_, ?_, by decide, by decide⟩
  · intro h
    have hnot : ¬ (s.length > n) := by omega
    simp [truncate_string, hnot, List.take_of_length_le h]
  · intro h
    have hif : truncate_string s n = (s.take n).dropLast ++ ['…'] := by
      simp [truncate_string, h]
    have hlen : (s.take n).length = n := by
      rw [List.length_take]; omega
    have hdrop : (s.take n).dropLast = s.take (n - 1) := by
      rw [List.dropLast_eq_take, hlen, List.take_take]
      congr 1
      omega
    refine ⟨?_, ?_, ?_⟩
    · rw [hif, List.length_append, hdrop, List.length_take]
      simp
      omega
    · rw [hif]
      simp
    · rw [hif, hdrop]
      rw [List.take_append_of_le_length (by rw [List.length_take]; omega)]
      rw [List.take_take]
      congr 1
      omega

/-- Claim C7 witness: the amended theorem applied at `s = "abcdefghij"`,
`n = 5`. -/
theorem C7_witness :
    (1 ≤ 5) ∧ ("abcdefghij".data.length > 5 →
      (truncate_string "abcdefghij".data 5).length = 5) := by
  refine ⟨by decide, ?_⟩
  intro h
  exact (C7_truncate_spec "abcdefghij".data 5 (by decide)).2.1 h |>.1

theorem splitChar_ne_nil (sep : Char) : ∀ l : List Char, splitChar sep l ≠ []
  | [] => by simp [splitChar]
  | c :: cs => by
    simp only [splitChar]
    by_cases h : c = sep
    · simp [h]
    · simp only [if_neg h]
      cases hs : splitChar sep cs <;> simp

theorem splitChar_append_sep (sep : Char) (t r : List Char) (ht : sep ∉ t) :
    splitChar sep (t ++ sep :: r) = t :: splitChar sep r := by
  induction t with
  | nil => simp [splitChar]
  | cons c t ih =>
    rw [List.mem_cons, not_or] at ht
    have hc : ¬ (c = sep) := fun h => ht.1 h.symm
    rw [List.cons_append]
    simp only [splitChar, if_neg hc]
    rw [ih ht.2]

theorem splitChar_no_sep (sep : Char) (t : List Char) (ht : sep ∉ t) :
    splitChar sep t = [t] := by
  induction t with
  | nil => simp [splitChar]
  | cons c t ih =>
    rw [List.mem_cons, not_or] at ht
    have hc : ¬ (c = sep) := fun h => ht.1 h.symm
    simp only [splitChar, if_neg hc]
    rw [ih ht.2]

theorem splitChar_joinSep (sep : Char) :
    ∀ ts : List (List Char), ts ≠ [] → (∀ t ∈ ts, sep ∉ t) →
      splitChar sep (joinSep sep ts) = ts
  | [], h, _ => absurd rfl h
  | [t], _, hs => by
    simp only [joinSep]
    exact splitChar_no_sep sep t (hs t (by simp))
  | t :: t' :: ts, _, hs => by
    have hj : joinSep sep (t :: t' :: ts) = t ++ sep :: joinSep sep (t' :: ts) :=
      rfl
    rw [hj, splitChar_append_sep sep t _ (hs t (by simp))]
    rw [splitChar_joinSep sep (t' :: ts) (by simp)
      (fun x hx => hs x (List.mem_cons_of_mem _ hx))]

/-- Claim C8: `short_title` drops a target-type-dependent number of leading
space-delimited tokens from the title (4 for a distribution, 5 for a
distribution-source-package, 6 for a source-package, 7 for a project) and
strips embedded double quotes; in particular for title `"A B C D E F"` the
result is `"F"` for a distribution-source-package target and `"E F"` for a
distribution target. -/
theorem C8_short_title_spec (tokens : List (List Char)) (rt : TargetType)
    (hne : tokens ≠ []) (hsp : ∀ t ∈ tokens, ' ' ∉ t) :
    short_title (joinSep ' ' tokens) rt =
      (joinSep ' ' (tokens.drop
        (match rt with
         | .distribution => 4
         | .distribution_source_package => 5
         | .source_package => 6
         | .project => 7))).filter (fun c => c != '"') ∧
    short_title "A B C D E F".data .distribution_source_package = "F".data ∧
    short_title "A B C D E F".data .distribution = "E F".data := by
  refine ⟨?_, by decide, by decide⟩
  unfold short_title
  rw [splitChar_joinSep ' ' tokens hne hsp]
  cases rt <;> rfl

/-- Claim C8 witness: the theorem applied at the six-token title
`"A B C D E F"` with a distribution-source-package target. -/
theorem C8_witness :
    (["A".data, "B".data, "C".data, "D".data, "E".data, "F".data] ≠
      ([] : List (List Char))) ∧
    short_title
        (joinSep ' ' ["A".data, "B".data, "C".data, "D".data, "E".data,
          "F".data]) .distribution_source_package =
      (joinSep ' ' (["A".data, "B".data, "C".data, "D".data, "E".data,
        "F".data].drop 5)).filter (fun c => c != '"') := by
  refine ⟨by decide, ?_⟩
  exact (C8_short_title_spec
    ["A".data, "B".data, "C".data, "D".data, "E".data, "F".data]
    .distribution_source_package (by decide) (by decide)).1

/-- Claim C9: for a title of the form `"Bug #<N> <rest>"` with `<N>` a
nonempty digit string, the `number` property equals those digits, and with
the lru_cache in place a second access returns the same value while the
underlying computation has run exactly once. -/
theorem C9_number_spec (ds rest : List Char) (hne : ds ≠ [])
    (hds : ∀ c ∈ ds, c.isDigit) :
    number_of ("Bug #".data ++ ds ++ ' ' :: rest) = ds ∧
    (number_access ("Bug #".data ++ ds ++ ' ' :: rest) ⟨none, 0⟩).1 = ds ∧
    (number_access ("Bug #".data ++ ds ++ ' ' :: rest)
      ((number_access ("Bug #".data ++ ds ++ ' ' :: rest) ⟨none, 0⟩).2)).1
      = ds ∧
    ((number_access ("Bug #".data ++ ds ++ ' ' :: rest)
      ((number_access ("Bug #".data ++ ds ++ ' ' :: rest)
        ⟨none, 0⟩).2)).2).computes = 1 := by
  have hB5 : "Bug #".data = 'B' :: 'u' :: 'g' :: ' ' :: '#' :: [] := rfl
  have hB3 : "Bug".data = 'B' :: 'u' :: 'g' :: [] := rfl
  have h1 : "Bug #".data ++ ds ++ ' ' :: rest
      = "Bug".data ++ ' ' :: (('#' :: ds) ++ ' ' :: rest) := by
    rw [hB5, hB3]
    simp
  have hds' : ' ' ∉ '#' :: ds := by
    rw [List.mem_cons, not_or]
    refine ⟨by decide, fun hmem => ?_⟩
    exact absurd (hds ' ' hmem) (by decide)
  have hsplit : splitChar ' ' ("Bug #".data ++ ds ++ ' ' :: rest)
      = "Bug".data :: ('#' :: ds) :: splitChar ' ' rest := by
    rw [h1, splitChar_append_sep ' ' "Bug".data _ (by rw [hB3]; decide),
      splitChar_append_sep ' ' ('#' :: ds) _ hds']
  have hnum : number_of ("Bug #".data ++ ds ++ ' ' :: rest) = ds := by
    unfold number_of
    rw [hsplit]
    simp only [List.getD_cons_succ, List.getD_cons_zero, List.filter_cons]
    have hhash : (('#' : Char) != '#') = false := by decide
    rw [hhash]
    simp only [Bool.false_eq_true, if_false]
    refine List.filter_eq_self.mpr (fun c hc => ?_)
    have hd := hds c hc
    simp only [bne_iff_ne, ne_eq]
    intro hceq
    subst hceq
    exact absurd hd (by decide)
  have hacc1 : number_access ("Bug #".data ++ ds ++ ' ' :: rest) ⟨none, 0⟩
      = (number_of ("Bug #".data ++ ds ++ ' ' :: rest),
        ⟨some (number_of ("Bug #".data ++ ds ++ ' ' :: rest)), 1⟩) := rfl
  rw [hnum] at hacc1
  have hacc2 : number_access ("Bug #".data ++ ds ++ ' ' :: rest)
      ⟨some ds, 1⟩ = (ds, ⟨some ds, 1⟩) := rfl
  refine ⟨hnum, ?_, ?_, ?_⟩
  · rw [hacc1]
  · rw [hacc1, hacc2]
  · rw [hacc1, hacc2]

/-- Claim C9 witness: the theorem applied at title
`"Bug #123 in apache2"`. -/
theorem C9_witness :
    ("123".data ≠ []) ∧
    number_of ("Bug #".data ++ "123".data ++ ' ' :: "in apache2".data)
      = "123".data := by
  exact ⟨by decide,
    (C9_number_spec "123".data "in apache2".data (by decide) (by decide)).1⟩

theorem scan_traced_fst (number : String) :
    ∀ l : List Upload, (∀ u ∈ l, raisesStopIteration u = false) →
      (scan_uploads_traced number l).1 = .ok (l.any (upload_matches number))
  | [], _ => rfl
  | u :: rest, h => by
    have hrest : ∀ v ∈ rest, raisesStopIteration v = false :=
      fun v hv => h v (List.mem_cons_of_mem _ hv)
    have hu := h u (List.mem_cons_self _ _)
    have ih := scan_traced_fst number rest hrest
    simp only [scan_uploads_traced, List.any_cons]
    cases hg : get_upload_source_urls u with
    | error e =>
      have hre : isRuntimeError e = true := by
        cases e
        · rfl
        · rfl
        · rw [raisesStopIteration, hg] at hu
          exact absurd hu (by decide)
      have hm : upload_matches number u = false := by
        simp [upload_matches, hg]
      dsimp only
      rw [hre]
      simp only [if_true]
      rw [ih, hm]
      simp
    | ok urls =>
      have hm : upload_matches number u
          = (strOptTruthy u.changes_file_url && decide (number ∈ u.changes_bugs)) := by
        simp [upload_matches, hg]
      dsimp only
      by_cases hurl : strOptTruthy u.changes_file_url
      · rw [if_pos hurl]
        by_cases hmem : number ∈ u.changes_bugs
        · rw [if_pos hmem, hm, hurl]
          simp [hmem]
        · rw [if_neg hmem]
          cases hsc : scan_uploads_traced number rest with
          | mk r n =>
            rw [hsc] at ih
            simp only [hm, hurl, hmem]
            simpa using ih
      · rw [if_neg hurl]
        rw [ih, hm]
        simp only [Bool.not_eq_true] at hurl
        rw [hurl]
        simp

/-- Claim C5: during the unapproved-queue scan every upload whose
source-URL resolution fails with a `RuntimeError` (permission probe raised,
or neither a direct source nor a copy) or that lacks a truthy changes-file
URL is skipped and the scan continues; `_is_in_unapproved` returns true iff
some non-skipped upload's changes file lists this record's number, and
false after exhausting all uploads without a match. -/
theorem C5_unapproved_scan_skips (t : TaskR)
    (hser : strOptTruthy t.series = true)
    (hdev : t.series ≠ some "-devel")
    (hns : ∀ u ∈ t.uploads, raisesStopIteration u = false) :
    is_in_unapproved_result t
      = .ok (some (t.uploads.any (upload_matches t.number))) := by
  unfold is_in_unapproved_result is_in_unapproved_traced
  have hbeq : (t.series == some "-devel") = false := by
    simpa using hdev
  rw [hser, hbeq]
  simp only [Bool.not_true, Bool.or_self]
  cases hsc : scan_uploads_traced t.number t.uploads with
  | mk r n =>
    have := scan_traced_fst t.number t.uploads hns
    rw [hsc] at this
    simp only at this
    simp only [Bool.false_or]
    rw [if_neg (by simp)]
    simp only [this, Except.map]

/-- Claim C5 witness: the theorem applied to a queue holding a
permission-failing copy upload, an unresolvable upload, an upload without a
changes file, and a matching source upload: the three are skipped and the
scan reports true. -/
theorem C5_witness :
    strOptTruthy task_scan.series = true ∧
    task_scan.series ≠ some "-devel" ∧
    (∀ u ∈ task_scan.uploads, raisesStopIteration u = false) ∧
    is_in_unapproved_result task_scan
      = .ok (some (task_scan.uploads.any (upload_matches task_scan.number))) ∧
    task_scan.uploads.any (upload_matches task_scan.number) = true := by
  refine ⟨by decide, by decide, by decide, ?_, by decide⟩
  exact C5_unapproved_scan_skips task_scan (by decide) (by decide) (by decide)

/-- Claim C2 (counterexample to the claim as stated): for the devel-series
record the method does return the null sentinel, but the session access
`Task.LP.distributions["ubuntu"]` is evaluated before the series guard, so
the claimed "no access to the bug-tracking API session occurs before
returning" is false. -/
theorem C2_counterexample :
    (is_in_unapproved_traced task_devel).1 = .ok none ∧
    (is_in_unapproved_traced task_devel).2.distribution_lookups ≠ 0 := by
  exact ⟨rfl, by decide⟩

/-- Claim C2 (amended): for every record whose series is empty/absent or
`"-devel"`, `_is_in_unapproved` returns `None` (not `False`) without
querying the series upload queue and without fetching any changes file, but
it performs the one distributions lookup that the source evaluates before
the series guard. -/
theorem C2_amended_devel_no_scan (t : TaskR)
    (h : strOptTruthy t.series = false ∨ t.series = some "-devel") :
    is_in_unapproved_traced t = (.ok none, ⟨1, 0, 0⟩) := by
  unfold is_in_unapproved_traced
  have hcond : (!(strOptTruthy t.series) || t.series == some "-devel") = true := by
    rcases h with h | h
    · rw [h]; simp
    · rw [h]; simp
  rw [hcond]
  simp

/-- Claim C2 witness: the amended theorem applied at the devel-series
record. -/
theorem C2_witness :
    task_devel.series = some "-devel" ∧
    is_in_unapproved_traced task_devel = (.ok none, ⟨1, 0, 0⟩) :=
  ⟨rfl, C2_amended_devel_no_scan task_devel (Or.inr rfl)⟩

theorem sibling_status_loop_count (cfg : StatusConfig) (t : TaskR)
    (u : Option Bool) (hok : is_in_unapproved_result t = .ok u) :
    ∀ (sibs : List (String × String)) (cnt : Nat),
      (sibling_status_loop cfg t sibs cnt).2
        = cnt + sibs.countP (fun p => decide (p.2 ∉ cfg.NOWORK_BUG_STATUSES))
  | [], cnt => by simp [sibling_status_loop]
  | (series, status) :: rest, cnt => by
    have ih := sibling_status_loop_count cfg t u hok rest
    simp only [sibling_status_loop]
    by_cases h : status ∈ cfg.NOWORK_BUG_STATUSES
    · rw [if_pos h]
      cases hrec : sibling_status_loop cfg t rest cnt with
      | mk r c =>
        have ihc := ih cnt
        rw [hrec] at ihc
        dsimp only at ihc
        simp only [decide_not] at ihc
        cases r <;> simp [List.countP_cons, h, ihc]
    · rw [if_neg h]
      have hcall : unapproved_call t cnt = (.ok u, cnt + 1) := by
        rw [unapproved_call, hok]
      rw [hcall]
      dsimp only
      cases hrec : sibling_status_loop cfg t rest (cnt + 1) with
      | mk r c =>
        have ihc := ih (cnt + 1)
        rw [hrec] at ihc
        dsimp only at ihc
        simp only [decide_not] at ihc
        cases r <;> simp [List.countP_cons, h, ihc] <;> omega

theorem get_releases_loop_count (cfg : StatusConfig) (t : TaskR)
    (u : Option Bool) (hok : is_in_unapproved_result t = .ok u) :
    ∀ (sibs : List (String × String)) (cnt : Nat),
      (get_releases_loop cfg t sibs cnt).2
        = cnt + sibs.countP (fun p => decide (p.2 ∉ cfg.NOWORK_BUG_STATUSES))
  | [], cnt => by simp [get_releases_loop]
  | (series, status) :: rest, cnt => by
    have ih := get_releases_loop_count cfg t u hok rest
    simp only [get_releases_loop]
    by_cases h : status ∈ cfg.NOWORK_BUG_STATUSES
    · rw [if_pos h]
      cases hrec : get_releases_loop cfg t rest cnt with
      | mk r c =>
        have ihc := ih cnt
        rw [hrec] at ihc
        dsimp only at ihc
        simp only [decide_not] at ihc
        cases r <;> simp [List.countP_cons, h, ihc]
    · rw [if_neg h]
      have hcall : unapproved_call t cnt = (.ok u, cnt + 1) := by
        rw [unapproved_call, hok]
      rw [hcall]
      dsimp only
      cases hrec : get_releases_loop cfg t rest (cnt + 1) with
      | mk r c =>
        have ihc := ih (cnt + 1)
        rw [hrec] at ihc
        dsimp only at ihc
        simp only [decide_not] at ihc
        cases r <;> simp [List.countP_cons, h, ihc] <;> omega

theorem get_releases_counted_snd (cfg : StatusConfig) (t : TaskR)
    (length cnt : Nat) :
    (get_releases_counted cfg t length cnt).2
      = (get_releases_loop cfg t t.siblings cnt).2 := by
  unfold get_releases_counted
  cases hrec : get_releases_loop cfg t t.siblings cnt with
  | mk r c =>
    cases r with
    | error e => rfl
    | ok info =>
      dsimp only
      split <;> rfl

/-- Claim C1 (counterexample to the claim as stated): on a record with a
single non-closed sibling, one run that evaluates the sibling
classification of `to_dict` and then `get_releases(7)` invokes
`_is_in_unapproved` twice — the boolean is not reused across the two call
sites, so the network cost is doubled, contradicting "at most once". -/
theorem C1_counterexample :
    run_both cfg_ex task_one_sibling 7 = 2 ∧
    ¬ (run_both cfg_ex task_one_sibling 7 ≤ 1) := by
  exact ⟨by decide, by decide⟩

/-- Claim C1 (amended): `_is_in_unapproved` carries no cache of its own, so
a single run that evaluates the sibling classification of `to_dict` and
then `get_releases` invokes it once per sibling whose status is not in
`NOWORK_BUG_STATUSES` at each of the two call sites — `2 * k` invocations
for `k` non-closed siblings — rather than at most once. -/
theorem C1_amended_call_count (cfg : StatusConfig) (t : TaskR) (length : Nat)
    (u : Option Bool) (hok : is_in_unapproved_result t = .ok u) :
    run_both cfg t length
      = 2 * t.siblings.countP
          (fun p => decide (p.2 ∉ cfg.NOWORK_BUG_STATUSES)) := by
  unfold run_both
  rw [get_releases_counted_snd, get_releases_loop_count cfg t u hok,
    sibling_status_loop_count cfg t u hok]
  omega

/-- Claim C1 witness: the amended theorem applied at the one-sibling
record, where the run performs `2 * 1` invocations. -/
theorem C1_witness :
    is_in_unapproved_result task_one_sibling = .ok (some false) ∧
    run_both cfg_ex task_one_sibling 7
      = 2 * task_one_sibling.siblings.countP
          (fun p => decide (p.2 ∉ cfg_ex.NOWORK_BUG_STATUSES)) :=
  ⟨rfl, C1_amended_call_count cfg_ex task_one_sibling 7 (some false) rfl⟩

theorem sibling_status_loop_fst (cfg : StatusConfig) (t : TaskR)
    (u : Option Bool) (hok : is_in_unapproved_result t = .ok u) :
    ∀ (sibs : List (String × String)) (cnt : Nat),
      (sibling_status_loop cfg t sibs cnt).1 = .ok (sibs.map (fun p =>
        (p.1, if p.2 ∈ cfg.NOWORK_BUG_STATUSES then "closed"
          else if truthyOB u then "unapproved"
          else if p.2 ∈ cfg.OPEN_BUG_STATUSES then "open" else "pending")))
  | [], cnt => rfl
  | (series, status) :: rest, cnt => by
    have ih := sibling_status_loop_fst cfg t u hok rest
    simp only [sibling_status_loop, List.map_cons]
    by_cases h : status ∈ cfg.NOWORK_BUG_STATUSES
    · rw [if_pos h]
      cases hrec : sibling_status_loop cfg t rest cnt with
      | mk r c =>
        have ihc := ih cnt
        rw [hrec] at ihc
        cases r with
        | ok l =>
          dsimp only
          dsimp only at ihc
          injection ihc with h2
          rw [h2, if_pos h]
        | error e =>
          dsimp only at ihc
          exact absurd ihc (by simp)
    · rw [if_neg h]
      have hcall : unapproved_call t cnt = (.ok u, cnt + 1) := by
        rw [unapproved_call, hok]
      rw [hcall]
      dsimp only
      cases hrec : sibling_status_loop cfg t rest (cnt + 1) with
      | mk r c =>
        have ihc := ih (cnt + 1)
        rw [hrec] at ihc
        cases r with
        | ok l =>
          dsimp only
          dsimp only at ihc
          injection ihc with h2
          rw [h2, if_neg h]
        | error e =>
          dsimp only at ihc
          exact absurd ihc (by simp)

/-- Claim C4: the sibling classification of `to_dict` maps each
(series, status) pair to `closed` when the status is in
`NOWORK_BUG_STATUSES`, else to `unapproved` when the unapproved check is
truthy, else to `open` when the status is in `OPEN_BUG_STATUSES`, else to
`pending`; in particular a sibling with a no-work status is classified
`closed` regardless of the unapproved check. -/
theorem C4_sibling_status_precedence (cfg : StatusConfig) (t : TaskR)
    (u : Option Bool) (hok : is_in_unapproved_result t = .ok u) :
    sibling_task_status cfg t = .ok (t.siblings.map (fun p =>
      (p.1, if p.2 ∈ cfg.NOWORK_BUG_STATUSES then "closed"
        else if truthyOB u then "unapproved"
        else if p.2 ∈ cfg.OPEN_BUG_STATUSES then "open" else "pending"))) ∧
    ∀ series status, (series, status) ∈ t.siblings →
      status ∈ cfg.NOWORK_BUG_STATUSES →
      ∃ l, sibling_task_status cfg t = .ok l ∧ (series, "closed") ∈ l := by
  have h1 := sibling_status_loop_fst cfg t u hok t.siblings 0
  refine ⟨h1, fun series status hmem hnw => ⟨_, h1, ?_⟩⟩
  refine List.mem_map.mpr ⟨(series, status), hmem, ?_⟩
  simp [hnw]

theorem green_cap : COLOR_GREEN.filter isCapital = [] := by decide

theorem green_cos : COLOR_GREEN.filter capitalOrSpace = [] := by decide

theorem cyan_cap : COLOR_CYAN.filter isCapital = [] := by decide

theorem cyan_cos : COLOR_CYAN.filter capitalOrSpace = [] := by decide

theorem yellow_cap : COLOR_YELLOW.filter isCapital = [] := by decide

theorem yellow_cos : COLOR_YELLOW.filter capitalOrSpace = [] := by decide

theorem reset_cap : COLOR_RESET.filter isCapital = [] := by decide

theorem reset_cos : COLOR_RESET.filter capitalOrSpace = [] := by decide

theorem mark_filter_cap (rc color : List Char)
    (h : color.filter isCapital = []) :
    (mark rc color).filter isCapital = rc.filter isCapital := by
  simp [mark, List.filter_append, h, reset_cap]

theorem mark_filter_cos (rc color : List Char)
    (h : color.filter capitalOrSpace = []) :
    (mark rc color).filter capitalOrSpace = rc.filter capitalOrSpace := by
  simp [mark, List.filter_append, h, reset_cos]

theorem replicate_space_cap (n : Nat) :
    (List.replicate n ' ').filter isCapital = [] := by
  induction n with
  | zero => rfl
  | succ n ih =>
    simp [List.replicate_succ, List.filter_cons, ih,
      show isCapital ' ' = false from by decide]

theorem replicate_space_cos (n : Nat) :
    (List.replicate n ' ').filter capitalOrSpace = List.replicate n ' ' := by
  induction n with
  | zero => rfl
  | succ n ih => simp [List.replicate_succ, List.filter_cons, ih, capitalOrSpace]

theorem get_releases_loop_fst (cfg : StatusConfig) (t : TaskR)
    (u : Option Bool) (hok : is_in_unapproved_result t = .ok u) :
    ∀ (sibs : List (String × String)) (cnt : Nat),
      (∀ p ∈ sibs, isCapital (release_char p.1) = true) →
      ∃ info, (get_releases_loop cfg t sibs cnt).1 = .ok info ∧
        info.filter isCapital = sibs.map (fun p => release_char p.1) ∧
        info.filter capitalOrSpace = sibs.map (fun p => release_char p.1)
  | [], cnt, _ => ⟨[], rfl, rfl, rfl⟩
  | (series, status) :: rest, cnt, hcap => by
    have hc1 : isCapital (release_char series) = true :=
      hcap (series, status) (List.mem_cons_self _ _)
    have hcos1 : capitalOrSpace (release_char series) = true := by
      simp [capitalOrSpace, hc1]
    have hrest : ∀ p ∈ rest, isCapital (release_char p.1) = true :=
      fun p hp => hcap p (List.mem_cons_of_mem _ hp)
    simp only [get_releases_loop, List.map_cons]
    by_cases h : status ∈ cfg.NOWORK_BUG_STATUSES
    · rw [if_pos h]
      obtain ⟨info, hinfo, hf1, hf2⟩ :=
        get_releases_loop_fst cfg t u hok rest cnt hrest
      cases hrec : get_releases_loop cfg t rest cnt with
      | mk r c =>
        rw [hrec] at hinfo
        dsimp only at hinfo
        subst hinfo
        refine ⟨mark [release_char series] COLOR_GREEN ++ info, rfl, ?_, ?_⟩
        · rw [List.filter_append, mark_filter_cap _ _ green_cap, hf1]
          simp [hc1]
        · rw [List.filter_append, mark_filter_cos _ _ green_cos, hf2]
          simp [hcos1]
    · rw [if_neg h]
      have hcall : unapproved_call t cnt = (.ok u, cnt + 1) := by
        rw [unapproved_call, hok]
      rw [hcall]
      dsimp only
      obtain ⟨info, hinfo, hf1, hf2⟩ :=
        get_releases_loop_fst cfg t u hok rest (cnt + 1) hrest
      cases hrec : get_releases_loop cfg t rest (cnt + 1) with
      | mk r c =>
        rw [hrec] at hinfo
        dsimp only at hinfo
        subst hinfo
        by_cases ht : truthyOB u = true
        · rw [if_pos ht]
          refine ⟨mark [release_char series] COLOR_CYAN ++ info, rfl, ?_, ?_⟩
          · rw [List.filter_append, mark_filter_cap _ _ cyan_cap, hf1]
            simp [hc1]
          · rw [List.filter_append, mark_filter_cos _ _ cyan_cos, hf2]
            simp [hcos1]
        · rw [if_neg ht]
          by_cases ho : status ∈ cfg.OPEN_BUG_STATUSES
          · rw [if_pos ho]
            refine ⟨mark [release_char series] COLOR_YELLOW ++ info, rfl,
              ?_, ?_⟩
            · rw [List.filter_append, mark_filter_cap _ _ yellow_cap, hf1]
              simp [hc1]
            · rw [List.filter_append, mark_filter_cos _ _ yellow_cos, hf2]
              simp [hcos1]
          · rw [if_neg ho]
            refine ⟨[release_char series] ++ info, rfl, ?_, ?_⟩
            · rw [List.filter_append, hf1]
              simp [hc1]
            · rw [List.filter_append, hf2]
              simp [hcos1]

/-- Claim C3: `get_releases(length)` emits one release character per
sibling, in sibling iteration order (stripping the decorations leaves
exactly the release characters, with `"-devel"` rendered as `D`); the
decorations of the closed/unapproved/open cases are three pairwise
distinct markers; and once all decoration is stripped the result occupies
exactly `length` printable columns when there are fewer siblings than
`length` (right-padded with spaces), and one column per sibling
otherwise. -/
theorem C3_get_releases_spec (cfg : StatusConfig) (t : TaskR) (length : Nat)
    (u : Option Bool) (hok : is_in_unapproved_result t = .ok u)
    (hcap : ∀ p ∈ t.siblings, isCapital (release_char p.1) = true) :
    ∃ r, get_releases cfg t length = .ok r ∧
      r.filter isCapital = t.siblings.map (fun p => release_char p.1) ∧
      (t.siblings.length < length →
        (r.filter capitalOrSpace).length = length) ∧
      (length ≤ t.siblings.length →
        (r.filter capitalOrSpace).length = t.siblings.length) ∧
      release_char "-devel" = 'D' ∧
      (COLOR_GREEN ≠ COLOR_CYAN ∧ COLOR_GREEN ≠ COLOR_YELLOW ∧
        COLOR_CYAN ≠ COLOR_YELLOW) := by
  obtain ⟨info, hinfo, hf1, hf2⟩ :=
    get_releases_loop_fst cfg t u hok t.siblings 0 hcap
  unfold get_releases get_releases_counted
  cases hrec : get_releases_loop cfg t t.siblings 0 with
  | mk r c =>
    rw [hrec] at hinfo
    dsimp only at hinfo
    subst hinfo
    dsimp only
    have hplen : (info.filter isCapital).length = t.siblings.length := by
      rw [hf1, List.length_map]
    have hcoslen : (info.filter capitalOrSpace).length
        = t.siblings.length := by
      rw [hf2, List.length_map]
    by_cases hlt : t.siblings.length < length
    · have hpos : length - (info.filter isCapital).length > 0 := by omega
      rw [if_pos hpos]
      refine ⟨_, rfl, ?_, fun _ => ?_, fun hle => absurd hle (by omega),
        by decide, by decide, by decide, by decide⟩
      · rw [List.filter_append, replicate_space_cap, List.append_nil, hf1]
      · rw [List.filter_append, replicate_space_cos, List.length_append,
          hcoslen, List.length_replicate, hplen]
        omega
    · have hpos : ¬ (length - (info.filter isCapital).length > 0) := by
        omega
      rw [if_neg hpos]
      refine ⟨info, rfl, hf1, fun hlt2 => absurd hlt2 (by omega),
        fun _ => hcoslen, by decide, by decide, by decide, by decide⟩

/-- Claim C3 witness: the theorem applied at the spec example — two
siblings in series `trusty` and `-devel`, both with an open status, width
7: the undecorated output is `TD` padded to exactly 7 printable columns. -/
theorem C3_witness :
    is_in_unapproved_result task_two_siblings = .ok (some false) ∧
    (∀ p ∈ task_two_siblings.siblings,
      isCapital (release_char p.1) = true) ∧
    ∃ r, get_releases cfg_ex task_two_siblings 7 = .ok r ∧
      r.filter isCapital = ['T', 'D'] ∧
      (r.filter capitalOrSpace).length = 7 := by
  refine ⟨rfl, by decide, ?_⟩
  obtain ⟨r, hr, hcapf, hpad, _, _, _⟩ :=
    C3_get_releases_spec cfg_ex task_two_siblings 7 (some false) rfl
      (by decide)
  refine ⟨r, hr, ?_, hpad (by decide)⟩
  rw [hcapf]
  decide

/-- Claim C4 witness: the theorem applied at a record whose only sibling
has status "Fix Released" (in `NOWORK_BUG_STATUSES`) while the unapproved
check is true; the sibling is classified `closed`, never `unapproved`. -/
theorem C4_witness :
    is_in_unapproved_result task_closed_unapproved = .ok (some true) ∧
    sibling_task_status cfg_ex task_closed_unapproved =
      .ok (task_closed_unapproved.siblings.map (fun p =>
        (p.1, if p.2 ∈ cfg_ex.NOWORK_BUG_STATUSES then "closed"
          else if truthyOB (some true) then "unapproved"
          else if p.2 ∈ cfg_ex.OPEN_BUG_STATUSES then "open"
          else "pending"))) ∧
    sibling_task_status cfg_ex task_closed_unapproved
      = .ok [("trusty", "closed")] :=
  ⟨rfl,
    (C4_sibling_status_precedence cfg_ex task_closed_unapproved
      (some true) rfl).1,
    rfl⟩

/-- Claim C10: on a freshly constructed record whose caller-supplied flags
were never assigned and with the class-wide AGE and OLD thresholds unset,
`_is_updated` and `_is_old` return the falsy non-boolean sentinel `None`
(not `False`), and `get_flags(newbug=False)` succeeds with a space in the
subscribed, last-activity-ours and updated/old positions. -/
theorem C10_default_flags (cfg : FlagsConfig) (t : TaskF)
    (hA : cfg.AGE = none) (hO : cfg.OLD = none)
    (hs : t.subscribed = none) (hl : t.last_activity_ours = none) :
    is_updated cfg t = none ∧ is_updated cfg t ≠ some false ∧
    is_old cfg t = none ∧ is_old cfg t ≠ some false ∧
    (get_flags cfg t false).take 3 = [' ', ' ', ' '] := by
  have hu : is_updated cfg t = none := by rw [is_updated, hA]
  have ho : is_old cfg t = none := by rw [is_old, hO]
  refine ⟨hu, by rw [hu]; simp, ho, by rw [ho]; simp, ?_⟩
  rw [get_flags, hs, hl, hu, ho]
  rfl

/-- Claim C10 witness: the theorem applied at the unset thresholds and a
freshly constructed record. -/
theorem C10_witness :
    cfg_unset.AGE = none ∧ task_fresh.subscribed = none ∧
    is_updated cfg_unset task_fresh = none ∧
    is_old cfg_unset task_fresh = none ∧
    (get_flags cfg_unset task_fresh false).take 3 = [' ', ' ', ' '] := by
  have h := C10_default_flags cfg_unset task_fresh rfl rfl rfl rfl
  exact ⟨rfl, rfl, h.1, h.2.2.1, h.2.2.2.2⟩

theorem keys_update_assoc (k v : List Char) :
    ∀ acc : List (List Char × List Char),
      (update_assoc k v acc).map Prod.fst =
        if k ∈ acc.map Prod.fst then acc.map Prod.fst
        else acc.map Prod.fst ++ [k]
  | [] => by simp [update_assoc]
  | (k', v') :: rest => by
    simp only [update_assoc, List.map_cons]
    by_cases h : k' = k
    · subst h
      simp
    · rw [if_neg h]
      simp only [List.map_cons]
      rw [keys_update_assoc k v rest]
      by_cases hm : k ∈ rest.map Prod.fst
      · rw [if_pos hm, if_pos (List.mem_cons_of_mem _ hm)]
      · rw [if_neg hm, if_neg ?_]
        · simp
        · rw [List.mem_cons, not_or]
          exact ⟨fun e => h e.symm, hm⟩

theorem lookup_update_assoc (k v s : List Char) :
    ∀ acc, assoc_lookup s (update_assoc k v acc)
      = if k = s then some v else assoc_lookup s acc
  | [] => by
    simp only [update_assoc, assoc_lookup]
  | (k', v') :: rest => by
    simp only [update_assoc]
    by_cases h : k' = k
    · subst h
      simp only [if_pos rfl, assoc_lookup]
      by_cases hs : k' = s <;> simp [assoc_lookup, hs]
    · rw [if_neg h]
      simp only [assoc_lookup]
      by_cases hs : k' = s
      · have hks : ¬ (k = s) := fun e => h (hs.trans e.symm)
        rw [if_pos hs, if_neg hks, if_pos hs]
      · rw [if_neg hs, if_neg hs, lookup_update_assoc k v s rest]

theorem mem_update_assoc (k v : List Char) :
    ∀ acc p, p ∈ update_assoc k v acc → p ∈ acc ∨ p = (k, v)
  | [], p, h => by
    simp only [update_assoc] at h
    exact Or.inr (List.mem_singleton.mp h)
  | (k', v') :: rest, p, h => by
    simp only [update_assoc] at h
    by_cases hk : k' = k
    · rw [if_pos hk] at h
      rcases List.mem_cons.mp h with h | h
      · exact Or.inr (by rw [h, hk])
      · exact Or.inl (List.mem_cons_of_mem _ h)
    · rw [if_neg hk] at h
      rcases List.mem_cons.mp h with h | h
      · exact Or.inl (by rw [h]; exact List.mem_cons_self _ _)
      · rcases mem_update_assoc k v rest p h with h | h
        · exact Or.inl (List.mem_cons_of_mem _ h)
        · exact Or.inr h

theorem dedup_first_aux_congr :
    ∀ (l s1 s2 : List (List Char)), (∀ x, x ∈ s1 ↔ x ∈ s2) →
      dedup_first_aux s1 l = dedup_first_aux s2 l
  | [], _, _, _ => rfl
  | k :: ks, s1, s2, h => by
    simp only [dedup_first_aux]
    by_cases hk : k ∈ s1
    · rw [if_pos hk, if_pos ((h k).mp hk), dedup_first_aux_congr ks s1 s2 h]
    · rw [if_neg hk, if_neg (fun hc => hk ((h k).mpr hc))]
      rw [dedup_first_aux_congr ks (k :: s1) (k :: s2) ?_]
      intro x
      simp [List.mem_cons, h x]

theorem keys_sibling_foldl (src : List Char) :
    ∀ (tasks : List (List Char)) (acc : List (List Char × List Char)),
      (tasks.foldl (sibling_step src) acc).map Prod.fst
        = acc.map Prod.fst ++
          dedup_first_aux (acc.map Prod.fst)
            ((tasks.filter (sibling_qualifies src)).map sibling_series)
  | [], acc => by simp [dedup_first_aux]
  | ref :: rest, acc => by
    simp only [List.foldl_cons, List.filter_cons]
    by_cases hq : sibling_qualifies src ref = true
    · rw [hq]
      have hstep : sibling_step src acc ref
          = update_assoc (sibling_series ref) ref acc := by
        rw [sibling_step, if_pos hq]
      rw [hstep, keys_sibling_foldl src rest _, keys_update_assoc]
      by_cases hk : sibling_series ref ∈ acc.map Prod.fst
      · rw [if_pos hk]
        simp only [if_true, List.map_cons, dedup_first_aux]
        rw [if_pos hk]
      · rw [if_neg hk]
        simp only [if_true, List.map_cons, dedup_first_aux]
        rw [if_neg hk]
        rw [dedup_first_aux_congr _
          (acc.map Prod.fst ++ [sibling_series ref])
          (sibling_series ref :: acc.map Prod.fst) ?_]
        · simp
        · intro x
          simp [List.mem_cons, List.mem_append, or_comm]
    · have hq' : sibling_qualifies src ref = false := by
        simpa using hq
      rw [hq']
      have hstep : sibling_step src acc ref = acc := by
        rw [sibling_step, if_neg (by simp [hq'])]
      rw [hstep]
      simp only [Bool.false_eq_true, if_false]
      exact keys_sibling_foldl src rest acc

theorem getLast?_eq_or {α : Type} (a : α) (l : List α) :
    (a :: l).getLast? = (l.getLast?).or (some a) := by
  induction l generalizing a with
  | nil => rfl
  | cons b l ih =>
    rw [List.getLast?_cons_cons, ih b]
    cases l.getLast? <;> rfl

theorem lookup_sibling_foldl (src s : List Char) :
    ∀ (tasks : List (List Char)) (acc : List (List Char × List Char)),
      assoc_lookup s (tasks.foldl (sibling_step src) acc)
        = ((tasks.filter (fun r => sibling_qualifies src r &&
            decide (sibling_series r = s))).getLast?).or
            (assoc_lookup s acc)
  | [], acc => by simp [List.getLast?, Option.or]
  | ref :: rest, acc => by
    simp only [List.foldl_cons, List.filter_cons]
    by_cases hq : sibling_qualifies src ref = true
    · have hstep : sibling_step src acc ref
          = update_assoc (sibling_series ref) ref acc := by
        rw [sibling_step, if_pos hq]
      rw [hstep, lookup_sibling_foldl src s rest _,
        lookup_update_assoc]
      by_cases hs : sibling_series ref = s
      · rw [if_pos hs]
        rw [show (sibling_qualifies src ref &&
            decide (sibling_series ref = s)) = true from by simp [hq, hs]]
        simp only [if_true]
        rw [getLast?_eq_or]
        cases (rest.filter (fun r => sibling_qualifies src r &&
          decide (sibling_series r = s))).getLast? <;> rfl
      · rw [if_neg hs]
        rw [show (sibling_qualifies src ref &&
            decide (sibling_series ref = s)) = false from by simp [hs]]
        simp
    · have hq' : sibling_qualifies src ref = false := by simpa using hq
      have hstep : sibling_step src acc ref = acc := by
        rw [sibling_step, if_neg (by simp [hq'])]
      rw [hstep, hq']
      simp only [Bool.false_and, Bool.false_eq_true, if_false]
      exact lookup_sibling_foldl src s rest acc

theorem mem_sibling_foldl (src : List Char) :
    ∀ (tasks : List (List Char)) (acc : List (List Char × List Char)) p,
      p ∈ tasks.foldl (sibling_step src) acc →
      p ∈ acc ∨ (p.2 ∈ tasks ∧ sibling_qualifies src p.2 = true ∧
        p.1 = sibling_series p.2)
  | [], _, p, h => Or.inl h
  | ref :: rest, acc, p, h => by
    simp only [List.foldl_cons] at h
    rcases mem_sibling_foldl src rest (sibling_step src acc ref) p h
      with h1 | h1
    · by_cases hq : sibling_qualifies src ref = true
      · rw [sibling_step, if_pos hq] at h1
        rcases mem_update_assoc _ _ acc p h1 with h2 | h2
        · exact Or.inl h2
        · subst h2
          exact Or.inr ⟨List.mem_cons_self _ _, hq, rfl⟩
      · rw [sibling_step, if_neg hq] at h1
        exact Or.inl h1
    · exact Or.inr ⟨List.mem_cons_of_mem _ h1.1, h1.2.1, h1.2.2⟩

/-- Claim C6: `_sibling_tasks` keeps exactly the parent bug's tasks whose
path segment 4 is the literal `"ubuntu"` and whose source-package segment
equals this record's `src`; the mapping's keys appear in first-discovery
order (`+source` normalized to `-devel`), and looking a series up yields
the last-discovered qualifying task of that series. -/
theorem C6_sibling_tasks_spec (src : List Char)
    (bug_tasks : List (List Char))
    (hlen : ∀ ref ∈ bug_tasks, 6 ≤ (splitChar '/' ref).length) :
    (sibling_tasks src bug_tasks).map Prod.fst
      = dedup_first ((bug_tasks.filter (sibling_qualifies src)).map
          sibling_series) ∧
    (∀ s, assoc_lookup s (sibling_tasks src bug_tasks)
      = (bug_tasks.filter (fun r => sibling_qualifies src r &&
          decide (sibling_series r = s))).getLast?) ∧
    (∀ p ∈ sibling_tasks src bug_tasks,
      p.2 ∈ bug_tasks ∧ sibling_qualifies src p.2 = true ∧
        p.1 = sibling_series p.2) ∧
    normalize_series "+source".data = "-devel".data := by
  refine ⟨?_, ?_, ?_, rfl⟩
  · have h := keys_sibling_foldl src bug_tasks []
    simpa [sibling_tasks, dedup_first] using h
  · intro s
    have h := lookup_sibling_foldl src s bug_tasks []
    rw [sibling_tasks, h]
    cases (bug_tasks.filter (fun r => sibling_qualifies src r &&
      decide (sibling_series r = s))).getLast? <;> rfl
  · intro p hp
    rcases mem_sibling_foldl src bug_tasks [] p hp with h | h
    · exact absurd h (List.not_mem_nil p)
    · exact h

/-- Claim C6 witness: the theorem applied to a bug with two ubuntu/apache2
tasks in series trusty, one devel (`+source`) task, and one debian task:
the debian task is excluded, keys come in discovery order with `+source`
normalized, and the later trusty task wins the duplicate series. -/
theorem C6_witness :
    (∀ ref ∈ bug_tasks_ex, 6 ≤ (splitChar '/' ref).length) ∧
    (sibling_tasks "apache2".data bug_tasks_ex).map Prod.fst
      = dedup_first ((bug_tasks_ex.filter
          (sibling_qualifies "apache2".data)).map sibling_series) ∧
    (sibling_tasks "apache2".data bug_tasks_ex).map Prod.fst
      = ["trusty".data, "-devel".data] ∧
    assoc_lookup "trusty".data (sibling_tasks "apache2".data bug_tasks_ex)
      = some ref_trusty2 := by
  have h := C6_sibling_tasks_spec "apache2".data bug_tasks_ex (by decide)
  refine ⟨by decide, h.1, by decide, ?_⟩
  rw [h.2.1 "trusty".data]
  decide

end Ustriage
